import Mathlib

/-!
Verification of the dependency-manager core of
`five-bells-integration-test-loader` (`src/lib/dependency-manager.js`).

JavaScript objects with string values are modelled as insertion-ordered
association lists (`List (String × String)`); property lookup, property
assignment, `Object.assign` and `delete` are `objGet`, `objSet`,
`objAssign` and `objDelete`.  The ambient world read by the
`DependencyManager` class (the `CIRCLE_BRANCH` environment variable, the
local git-branch lookup, `fetch`, the host project's `package.json` name
and the working directory) is an explicit `Env` record.  Side effects
(spawned subprocesses, `chdir`, file writes, network requests, `rimraf`
calls, and each invocation of `getBranchNameUnderTest`) are logged as an
`Event` trace, and fallible asynchronous steps return `Except`.
-/

namespace DepMgr

/-- Property lookup `o[k]` on a JS object: the first entry with key `k`,
`none` meaning `undefined`. -/
def objGet : List (String × String) → String → Option String
  | [], _ => none
  | (k2, v) :: rest, k => if k2 = k then some v else objGet rest k

/-- Property assignment `o[k] = v` on a JS object: updates the first entry
with key `k` in place, or appends a fresh entry at the end. -/
def objSet : List (String × String) → String → String → List (String × String)
  | [], k, v => [(k, v)]
  | (k2, v2) :: rest, k, v =>
    if k2 = k then (k2, v) :: rest else (k2, v2) :: objSet rest k v

/-- `Object.assign(o, extra)`: assigns every entry of `extra`, in order,
onto `o`. -/
def objAssign (o : List (String × String)) (extra : List (String × String)) :
    List (String × String) :=
  extra.foldl (fun acc kv => objSet acc kv.1 kv.2) o

/-- `delete o[k]` on a JS object. -/
def objDelete (o : List (String × String)) (k : String) : List (String × String) :=
  o.filter (fun kv => decide (kv.1 ≠ k))

/-- JS truthiness of a string-or-undefined value: `undefined` and `""` are
falsy, every other string is truthy. -/
def jsTruthy : Option String → Bool
  | none => false
  | some s => decide (s ≠ "")

/-- Rendering of a string-or-undefined value inside a JS template literal:
`undefined` prints as `"undefined"`. -/
def jsTemplate : Option String → String
  | none => "undefined"
  | some s => s

/-- Rendering of a string-or-null value under JS string concatenation:
`null` prints as `"null"`. -/
def jsAddNull : Option String → String
  | none => "null"
  | some s => s

/-- The ambient world read by a `DependencyManager` instance:
`process.env.CIRCLE_BRANCH` (`none` = unset), the result of
`gitBranch.sync(workDir)` (`error` = the lookup threw), the status
returned by `fetch` for each URL (`error` = network error), the `name`
field of the host project's `package.json`, and the working directory. -/
structure Env where
  circleBranch : Option String
  gitBranchResult : Except Unit String
  fetchStatus : String → Except Unit Nat
  hostName : String
  workDir : String

/-- Lines 42-47 of `getBranchNameUnderTest`: the local variable `branch`
after the environment lookup and the guarded git lookup (`none` =
`undefined`, i.e. not a string). -/
def resolveRawBranch (env : Env) : Option String :=
  let branch := env.circleBranch
  if jsTruthy branch then branch
  else
    match env.gitBranchResult with
    | .ok g => some g
    | .error _ => branch

/-- `getBranchNameUnderTest` (lines 41-51): `null` when the raw candidate
is not a string or equals `"master"`, otherwise the candidate itself. -/
def getBranchNameUnderTest (env : Env) : Option String :=
  match resolveRawBranch env with
  | none => none
  | some b => if b = "master" then none else some b

/-- One observable side effect of a run. -/
inductive Event where
  | spawn (cmd : String) (args : List String)
  | mkdir (dir : String)
  | chdir (dir : String)
  | resolveBranch (result : Option String)
  | fetchReq (url : String)
  | writeFile (filePath : String) (contents : String)
  | rimrafSync (pat : String)
deriving DecidableEq

/-- The URLs of the network requests contained in a trace. -/
def fetchRequests (l : List Event) : List String :=
  l.filterMap (fun e => match e with | .fetchReq u => some u | _ => none)

/-- Recognizes the event logged by a `getBranchNameUnderTest` call. -/
def isResolveBranch : Event → Bool
  | .resolveBranch _ => true
  | _ => false

/-- `checkForBranchOnDependency` (lines 58-64): resolves the branch under
test, short-circuits to `false` on a falsy branch, otherwise issues one
GET to `https://github.com/<repo>/tree/<branch>` and compares the status
with 200; a network error rejects.  Returns the event trace together
with the promise outcome. -/
def checkForBranchOnDependency (env : Env) (defaultDependencies : List (String × String))
    (dependency : String) : List Event × Except Unit Bool :=
  let branch := getBranchNameUnderTest env
  if !jsTruthy branch then ([Event.resolveBranch branch], .ok false)
  else
    let repo := objGet defaultDependencies dependency
    let url := "https://github.com/" ++ jsTemplate repo ++ "/tree/" ++ jsTemplate branch
    match env.fetchStatus url with
    | .ok status => ([Event.resolveBranch branch, Event.fetchReq url], .ok (decide (status = 200)))
    | .error e => ([Event.resolveBranch branch, Event.fetchReq url], .error e)

/-- A synthesized `package.json` value (identity marker, privacy marker,
dependency mapping). -/
structure PackageDescriptor where
  name : String
  privateFlag : Bool
  dependencies : List (String × String)
deriving DecidableEq

/-- The fixed base dependency literal of `generateDummyPackageJSON`. -/
def baseDependencies : List (String × String) := [("sqlite3", "~3.1.0")]

/-- `Object.assign({sqlite3: "~3.1.0"}, defaultDependencies,
dependencyOverrides)` (lines 79-83). -/
def mergedDependencies (d o : List (String × String)) : List (String × String) :=
  objAssign (objAssign baseDependencies d) o

/-- Lines 86-90: the merged dependencies after the host-module
self-reference substitution (`file:../` whenever the host key holds a
truthy value). -/
def mergedWithHost (env : Env) (d o : List (String × String)) : List (String × String) :=
  if jsTruthy (objGet (mergedDependencies d o) env.hostName) then
    objSet (mergedDependencies d o) env.hostName "file:../"
  else mergedDependencies d o

/-- The package descriptor built by `generateDummyPackageJSON`
(lines 75-91). -/
def generateDummyDescriptor (env : Env) (defaultDependencies dependencyOverrides : List (String × String)) :
    PackageDescriptor :=
  { name := "five-bells-integration-test-instance"
    privateFlag := true
    dependencies := mergedWithHost env defaultDependencies dependencyOverrides }

/-- Minimal `JSON.stringify` string escaping for the characters that can
need it here. -/
def jsonEscapeChar (c : Char) : String :=
  if c = '\\' then "\\\\"
  else if c = '\"' then "\\\""
  else if c = '\n' then "\\n"
  else if c = '\t' then "\\t"
  else if c = '\r' then "\\r"
  else String.singleton c

/-- JSON string escaping, character by character. -/
def jsonEscape (s : String) : String :=
  String.join (s.data.map jsonEscapeChar)

/-- `JSON.stringify` of the dependency mapping with 2-space indent. -/
def stringifyDependencies (deps : List (String × String)) : String :=
  match deps with
  | [] => "\x7b\x7d"
  | _ =>
    "\x7b\n" ++ String.intercalate ",\n"
      (deps.map (fun kv => "    \"" ++ jsonEscape kv.1 ++ "\": \"" ++ jsonEscape kv.2 ++ "\""))
      ++ "\n  \x7d"

/-- `JSON.stringify(packageDescriptor, null, 2)` (line 91). -/
def stringifyDescriptor (p : PackageDescriptor) : String :=
  "\x7b\n  \"name\": \"" ++ jsonEscape p.name ++ "\",\n  \"private\": "
    ++ (if p.privateFlag then "true" else "false")
    ++ ",\n  \"dependencies\": " ++ stringifyDependencies p.dependencies ++ "\n\x7d"

/-- `generateDummyPackageJSON` (lines 75-92): the stringified descriptor. -/
def generateDummyPackageJSON (env : Env) (d o : List (String × String)) : String :=
  stringifyDescriptor (generateDummyDescriptor env d o)

/-- JS `s.split(c)` on a single-character separator, on the character
list of the string. -/
def splitOnChar (c : Char) : List Char → List (List Char)
  | [] => [[]]
  | x :: xs =>
    let r := splitOnChar c xs
    if x = c then [] :: r
    else
      match r with
      | [] => [[x]]
      | y :: ys => (x :: y) :: ys

/-- JS `s.split(c)` for a single-character separator. -/
def jsSplit (s : String) (c : Char) : List String :=
  (splitOnChar c s.data).map String.mk

/-- `s.split('#')[1]`, with `undefined` rendered as the string
`"undefined"` when the index is out of range (line 121). -/
def splitSecond (s : String) : String :=
  (jsSplit s '#').getD 1 "undefined"

/-- `path.resolve(this.workDir, 'integration-test')` (line 15). -/
def testDir (env : Env) : String := env.workDir ++ "/integration-test"

/-- The per-dependency branch-qualified specifier `repo + '#' + branch`
built on lines 114-115, with the branch resolved per line 112. -/
def overrideValue (env : Env) (d : List (String × String)) (dep : String) : String :=
  jsTemplate (objGet d dep) ++ "#" ++ jsAddNull (getBranchNameUnderTest env)

/-- The `dependencyOverrides` object built by the loop on lines 111-116
from the filtered dependency names. -/
def buildOverrides (env : Env) (d : List (String × String)) (deps2 : List String) :
    List (String × String) :=
  deps2.foldl (fun acc dep => objSet acc dep (overrideValue env d dep)) []

/-- `ilpKitBranch` (lines 120-121): the text after the first `#` of the
ilp-kit override when that override is truthy, else `"master"`. -/
def ilpKitBranchOf (env : Env) (d : List (String × String)) (deps2 : List String) : String :=
  if jsTruthy (objGet (buildOverrides env d deps2) "ilp-kit") then
    splitSecond (jsTemplate (objGet (buildOverrides env d deps2) "ilp-kit"))
  else "master"

/-- Line 123: `this.defaultDependencies` after the guarded
`delete this.defaultDependencies['ilp-kit']`. -/
def depsAfterOf (d : List (String × String)) : List (String × String) :=
  if jsTruthy (objGet d "ilp-kit") then objDelete d "ilp-kit" else d

/-- Line 124: `dependencyOverrides` after the guarded
`delete dependencyOverrides['ilp-kit']`. -/
def overridesAfterOf (env : Env) (d : List (String × String)) (deps2 : List String) :
    List (String × String) :=
  if jsTruthy (objGet (buildOverrides env d deps2) "ilp-kit") then
    objDelete (buildOverrides env d deps2) "ilp-kit"
  else buildOverrides env d deps2

/-- `Promise.filter(keys, this.checkForBranchOnDependency.bind(this))`
(lines 107-110): runs every per-dependency check, concatenates their
event traces, keeps the names whose check resolved `true`, and rejects
when any check rejected. -/
def filterBranches (env : Env) (d : List (String × String)) :
    List String → List Event × Except Unit (List String)
  | [] => ([], .ok [])
  | dep :: rest =>
    ((checkForBranchOnDependency env d dep).1 ++ (filterBranches env d rest).1,
      match (checkForBranchOnDependency env d dep).2, (filterBranches env d rest).2 with
      | .error e, _ => .error e
      | _, .error e => .error e
      | .ok b, .ok keep => .ok (if b then dep :: keep else keep))

/-- The event trace of `installIlpKit` (lines 160-171): clone the
repository at the branch, install, link, link back. -/
def installIlpKitEvents (env : Env) (repo branch : String) : List Event :=
  [Event.spawn "git" ["clone", "https://github.com/" ++ repo, "-b", branch, testDir env ++ "/ilp-kit"],
   Event.chdir (testDir env ++ "/ilp-kit"),
   Event.spawn "npm" ["install"],
   Event.spawn "npm" ["link"],
   Event.chdir (testDir env),
   Event.spawn "npm" ["link", "ilp-kit"]]

/-- The events of `install` before the conditional `installIlpKit` call
(lines 102-139): workspace preparation, the branch checks, the line-112
branch resolution, the manifest write, the bulk `npm install`, and the
rimraf cleanup loop over the (mutated) dependency names. -/
def preIlpEvents (env : Env) (d : List (String × String)) (filterEvents : List Event)
    (dependenciesToOverride : List String) : List Event :=
  [Event.spawn "rm" ["-rf", testDir env], Event.mkdir (testDir env), Event.chdir (testDir env)]
    ++ filterEvents
    ++ [Event.resolveBranch (getBranchNameUnderTest env)]
    ++ [Event.writeFile (testDir env ++ "/package.json")
          (stringifyDescriptor (generateDummyDescriptor env (depsAfterOf d)
            (overridesAfterOf env d dependenciesToOverride))),
        Event.spawn "npm" ["install"]]
    ++ ((depsAfterOf d).map Prod.fst).map
          (fun n => Event.rimrafSync ("node_modules/**/node_modules/" ++ n))

/-- Every observable of one successful `install` run. -/
structure InstallResult where
  events : List Event
  branch : Option String
  overridden : List String
  dependencyOverrides : List (String × String)
  depsAfter : List (String × String)
  overridesAfter : List (String × String)
  ilpKitRepo : Option String
  ilpKitBranch : String
  descriptor : PackageDescriptor
  manifestString : String
  cleanupNames : List String
  ilpKitCall : Option (String × String)
deriving DecidableEq

/-- The body of `install` after the `Promise.filter` yield succeeded with
the names `dependenciesToOverride` and the events `filterEvents`
(lines 100-145, minus the error path of the filter). -/
def installCore (env : Env) (d : List (String × String)) (filterEvents : List Event)
    (dependenciesToOverride : List String) : InstallResult :=
  { events :=
      preIlpEvents env d filterEvents dependenciesToOverride
        ++ (if jsTruthy (objGet d "ilp-kit") then
              installIlpKitEvents env (jsTemplate (objGet d "ilp-kit"))
                (ilpKitBranchOf env d dependenciesToOverride)
            else [])
    branch := getBranchNameUnderTest env
    overridden := dependenciesToOverride
    dependencyOverrides := buildOverrides env d dependenciesToOverride
    depsAfter := depsAfterOf d
    overridesAfter := overridesAfterOf env d dependenciesToOverride
    ilpKitRepo := objGet d "ilp-kit"
    ilpKitBranch := ilpKitBranchOf env d dependenciesToOverride
    descriptor := generateDummyDescriptor env (depsAfterOf d)
      (overridesAfterOf env d dependenciesToOverride)
    manifestString := stringifyDescriptor (generateDummyDescriptor env (depsAfterOf d)
      (overridesAfterOf env d dependenciesToOverride))
    cleanupNames := (depsAfterOf d).map Prod.fst
    ilpKitCall :=
      if jsTruthy (objGet d "ilp-kit") then
        some (jsTemplate (objGet d "ilp-kit"), ilpKitBranchOf env d dependenciesToOverride)
      else none }

/-- `install` (lines 100-145): the coroutine rejects when the
`Promise.filter` of the branch checks rejects, otherwise runs to
completion. -/
def install (env : Env) (d : List (String × String)) : Except Unit InstallResult :=
  match (filterBranches env d (d.map Prod.fst)).2 with
  | .error e => .error e
  | .ok dependenciesToOverride =>
      .ok (installCore env d (filterBranches env d (d.map Prod.fst)).1 dependenciesToOverride)

/-! ### Lemmas about the JS object model -/

theorem objGet_objSet_self (o : List (String × String)) (k v : String) :
    objGet (objSet o k v) k = some v := by
  induction o with
  | nil => simp [objSet, objGet]
  | cons kv rest ih =>
    obtain ⟨k2, v2⟩ := kv
    by_cases h : k2 = k
    · simp [objSet, objGet, h]
    · simp [objSet, objGet, h, ih]

theorem objGet_objSet_ne (o : List (String × String)) (k v k' : String) (h : k' ≠ k) :
    objGet (objSet o k v) k' = objGet o k' := by
  have hne : ¬ k = k' := fun hh => h hh.symm
  induction o with
  | nil => simp [objSet, objGet, hne]
  | cons kv rest ih =>
    obtain ⟨k2, v2⟩ := kv
    by_cases h2 : k2 = k
    · subst h2
      simp [objSet, objGet, hne]
    · simp only [objSet, if_neg h2, objGet]
      by_cases h3 : k2 = k'
      · simp [h3]
      · simp [h3, ih]

theorem objGet_eq_none_iff (o : List (String × String)) (k : String) :
    objGet o k = none ↔ k ∉ o.map Prod.fst := by
  induction o with
  | nil => simp [objGet]
  | cons kv rest ih =>
    obtain ⟨k2, v2⟩ := kv
    by_cases h : k2 = k
    · subst h
      simp [objGet]
    · simp only [objGet, if_neg h, List.map_cons, List.mem_cons, ih]
      constructor
      · rintro hk (h1 | h1)
        · exact h h1.symm
        · exact hk h1
      · intro hk h1
        exact hk (Or.inr h1)

theorem objGet_mem_of_eq_some (o : List (String × String)) (k v : String)
    (h : objGet o k = some v) : k ∈ o.map Prod.fst := by
  by_contra hmem
  rw [← objGet_eq_none_iff] at hmem
  rw [h] at hmem
  cases hmem

theorem objGet_objAssign_of_none (m o : List (String × String)) (k : String)
    (h : objGet o k = none) : objGet (objAssign m o) k = objGet m k := by
  induction o generalizing m with
  | nil => rfl
  | cons kv rest ih =>
    obtain ⟨k2, v2⟩ := kv
    have h1 : ¬ k2 = k := by
      intro hk
      simp [objGet, hk] at h
    have h2 : objGet rest k = none := by
      simpa [objGet, h1] using h
    show objGet (objAssign (objSet m k2 v2) rest) k = objGet m k
    rw [ih (objSet m k2 v2) h2, objGet_objSet_ne _ _ _ _ (fun hh => h1 hh.symm)]

theorem objGet_objAssign_of_some (m o : List (String × String)) (k v : String) :
    (o.map Prod.fst).Nodup → objGet o k = some v →
    objGet (objAssign m o) k = some v := by
  induction o generalizing m with
  | nil => intro _ h; cases h
  | cons kv rest ih =>
    intro hnd h
    obtain ⟨k2, v2⟩ := kv
    simp only [List.map_cons, List.nodup_cons] at hnd
    by_cases h1 : k2 = k
    · subst h1
      have hv : v2 = v := by simpa [objGet] using h
      subst hv
      have hrest : objGet rest k2 = none := (objGet_eq_none_iff rest k2).mpr hnd.1
      show objGet (objAssign (objSet m k2 v2) rest) k2 = some v2
      rw [objGet_objAssign_of_none _ _ _ hrest, objGet_objSet_self]
    · have hrest : objGet rest k = some v := by simpa [objGet, h1] using h
      exact ih (objSet m k2 v2) hnd.2 hrest

theorem objDelete_cons_self (k2 v2 : String) (rest : List (String × String)) (k : String)
    (h : k2 = k) : objDelete ((k2, v2) :: rest) k = objDelete rest k := by
  simp [objDelete, List.filter_cons, h]

theorem objDelete_cons_ne (k2 v2 : String) (rest : List (String × String)) (k : String)
    (h : ¬ k2 = k) : objDelete ((k2, v2) :: rest) k = (k2, v2) :: objDelete rest k := by
  simp [objDelete, List.filter_cons, h]

theorem objGet_objDelete_self (o : List (String × String)) (k : String) :
    objGet (objDelete o k) k = none := by
  induction o with
  | nil => rfl
  | cons kv rest ih =>
    obtain ⟨k2, v2⟩ := kv
    by_cases h : k2 = k
    · rw [objDelete_cons_self _ _ _ _ h]
      exact ih
    · rw [objDelete_cons_ne _ _ _ _ h]
      simpa [objGet, h] using ih

theorem not_mem_objDelete (o : List (String × String)) (k : String) :
    k ∉ (objDelete o k).map Prod.fst := by
  rw [← objGet_eq_none_iff]
  exact objGet_objDelete_self o k

theorem mem_objDelete_of_ne (o : List (String × String)) (k k' : String) (hne : k' ≠ k) :
    k' ∈ o.map Prod.fst → k' ∈ (objDelete o k).map Prod.fst := by
  induction o with
  | nil => intro h; cases h
  | cons kv rest ih =>
    obtain ⟨k2, v2⟩ := kv
    intro hmem
    rw [List.map_cons, List.mem_cons] at hmem
    by_cases h2 : k2 = k
    · rw [objDelete_cons_self _ _ _ _ h2]
      rcases hmem with h1 | h1
      · exact absurd ((h1.trans h2 : k' = k)) hne
      · exact ih h1
    · rw [objDelete_cons_ne _ _ _ _ h2, List.map_cons, List.mem_cons]
      rcases hmem with h1 | h1
      · exact Or.inl h1
      · exact Or.inr (ih h1)

/-! ### Lemmas about the override construction -/

theorem buildOverrides_value_aux (env : Env) (d : List (String × String))
    (l : List String) (k v : String) :
    ∀ acc : List (String × String),
      (∀ w, objGet acc k = some w → w = overrideValue env d k) →
      objGet (l.foldl (fun a dep => objSet a dep (overrideValue env d dep)) acc) k = some v →
      v = overrideValue env d k := by
  induction l with
  | nil => intro acc hacc h; exact hacc v h
  | cons dep rest ih =>
    intro acc hacc h
    refine ih (objSet acc dep (overrideValue env d dep)) ?_ h
    intro w hw
    by_cases hk : dep = k
    · subst hk
      rw [objGet_objSet_self] at hw
      exact (Option.some.inj hw).symm
    · rw [objGet_objSet_ne _ _ _ _ (fun hh => hk hh.symm)] at hw
      exact hacc w hw

theorem buildOverrides_value (env : Env) (d : List (String × String))
    (l : List String) (k v : String)
    (h : objGet (buildOverrides env d l) k = some v) : v = overrideValue env d k := by
  refine buildOverrides_value_aux env d l k v [] ?_ h
  intro w hw
  cases hw

theorem buildOverrides_none_aux (env : Env) (d : List (String × String))
    (l : List String) (k : String) (hl : k ∉ l) :
    ∀ acc : List (String × String), objGet acc k = none →
      objGet (l.foldl (fun a dep => objSet a dep (overrideValue env d dep)) acc) k = none := by
  induction l with
  | nil => intro acc hacc; exact hacc
  | cons dep rest ih =>
    intro acc hacc
    have hne : k ≠ dep := fun hh => hl (hh ▸ List.mem_cons_self dep rest)
    have hrest : k ∉ rest := fun hh => hl (List.mem_cons_of_mem dep hh)
    refine ih hrest (objSet acc dep (overrideValue env d dep)) ?_
    rw [objGet_objSet_ne _ _ _ _ hne]
    exact hacc

theorem buildOverrides_none (env : Env) (d : List (String × String))
    (l : List String) (k : String) (hl : k ∉ l) :
    objGet (buildOverrides env d l) k = none :=
  buildOverrides_none_aux env d l k hl [] rfl

theorem buildOverrides_mem_aux (env : Env) (d : List (String × String))
    (l : List String) (k : String) :
    ∀ acc : List (String × String),
      (objGet acc k = some (overrideValue env d k) ∨ k ∈ l) →
      objGet (l.foldl (fun a dep => objSet a dep (overrideValue env d dep)) acc) k =
        some (overrideValue env d k) := by
  induction l with
  | nil =>
    intro acc hacc
    rcases hacc with h | h
    · exact h
    · cases h
  | cons dep rest ih =>
    intro acc hacc
    by_cases hk : dep = k
    · subst hk
      refine ih (objSet acc dep (overrideValue env d dep)) (Or.inl ?_)
      exact objGet_objSet_self acc dep (overrideValue env d dep)
    · refine ih (objSet acc dep (overrideValue env d dep)) ?_
      rcases hacc with h | h
      · exact Or.inl (by rw [objGet_objSet_ne _ _ _ _ (fun hh => hk hh.symm)]; exact h)
      · rcases List.mem_cons.mp h with h1 | h1
        · exact absurd h1.symm hk
        · exact Or.inr h1

theorem buildOverrides_mem (env : Env) (d : List (String × String))
    (l : List String) (k : String) (hl : k ∈ l) :
    objGet (buildOverrides env d l) k = some (overrideValue env d k) :=
  buildOverrides_mem_aux env d l k [] (Or.inr hl)

theorem overrideValue_ne_empty (env : Env) (d : List (String × String)) (dep : String) :
    overrideValue env d dep ≠ "" := by
  intro h
  have hd : (overrideValue env d dep).data = [] := by rw [h]
  unfold overrideValue at hd
  rw [String.data_append, String.data_append] at hd
  rcases List.append_eq_nil.mp hd with ⟨h1, _⟩
  rcases List.append_eq_nil.mp h1 with ⟨_, h2⟩
  cases h2

/-! ### Lemmas about the branch filter and the event traces -/

theorem check_events_filter (env : Env) (d : List (String × String)) (dep : String) :
    ((checkForBranchOnDependency env d dep).1).filter isResolveBranch =
      [Event.resolveBranch (getBranchNameUnderTest env)] := by
  unfold checkForBranchOnDependency
  cases h : jsTruthy (getBranchNameUnderTest env) with
  | false => simp [h, List.filter, isResolveBranch]
  | true =>
    simp only [h]
    cases hf : env.fetchStatus ("https://github.com/" ++
        jsTemplate (objGet d dep) ++ "/tree/" ++ jsTemplate (getBranchNameUnderTest env)) with
    | ok s => simp [hf, List.filter, isResolveBranch]
    | error e => simp [hf, List.filter, isResolveBranch]

theorem check_no_fetch_of_falsy (env : Env) (d : List (String × String)) (dep : String)
    (h : jsTruthy (getBranchNameUnderTest env) = false) :
    checkForBranchOnDependency env d dep =
      ([Event.resolveBranch (getBranchNameUnderTest env)], .ok false) := by
  unfold checkForBranchOnDependency
  simp [h]

theorem filterBranches_events_filter (env : Env) (d : List (String × String)) (l : List String) :
    ((filterBranches env d l).1).filter isResolveBranch =
      List.replicate l.length (Event.resolveBranch (getBranchNameUnderTest env)) := by
  induction l with
  | nil => rfl
  | cons dep rest ih =>
    show (((checkForBranchOnDependency env d dep).1 ++ (filterBranches env d rest).1).filter
      isResolveBranch) = _
    rw [List.filter_append, check_events_filter, ih, List.length_cons, List.replicate_succ]
    rfl

theorem filterBranches_subset (env : Env) (d : List (String × String)) :
    ∀ (l keep : List String), (filterBranches env d l).2 = .ok keep → keep ⊆ l := by
  intro l
  induction l with
  | nil =>
    intro keep h
    have : keep = [] := by
      simpa [filterBranches] using h.symm
    subst this
    exact List.nil_subset _
  | cons dep rest ih =>
    intro keep h
    unfold filterBranches at h
    cases hc : (checkForBranchOnDependency env d dep).2 with
    | error e =>
      rw [hc] at h
      cases hr : (filterBranches env d rest).2 with
      | error e2 => rw [hr] at h; cases h
      | ok keep2 => rw [hr] at h; cases h
    | ok b =>
      rw [hc] at h
      cases hr : (filterBranches env d rest).2 with
      | error e2 => rw [hr] at h; cases h
      | ok keep2 =>
        rw [hr] at h
        simp only [Except.ok.injEq] at h
        subst h
        cases b with
        | true =>
          show dep :: keep2 ⊆ dep :: rest
          exact List.cons_subset_cons dep (ih keep2 hr)
        | false =>
          show keep2 ⊆ dep :: rest
          exact List.subset_cons_of_subset dep (ih keep2 hr)

theorem filterBranches_error (env : Env) (d : List (String × String)) :
    ∀ (l : List String) (dep : String), dep ∈ l →
      (checkForBranchOnDependency env d dep).2 = .error () →
      (filterBranches env d l).2 = .error () := by
  intro l
  induction l with
  | nil => intro dep h; cases h
  | cons x rest ih =>
    intro dep hmem herr
    show (match (checkForBranchOnDependency env d x).2, (filterBranches env d rest).2 with
      | .error e, _ => Except.error e
      | _, .error e => Except.error e
      | .ok b, .ok keep => Except.ok (if b then x :: keep else keep)) = .error ()
    rcases List.mem_cons.mp hmem with h1 | h1
    · subst h1
      rw [herr]
      cases hr : (filterBranches env d rest).2 with
      | error e => rfl
      | ok keep => rfl
    · have hrec := ih dep h1 herr
      rw [hrec]
      cases hc : (checkForBranchOnDependency env d x).2 with
      | error e => cases e; rfl
      | ok b => rfl

theorem install_ok_elim (env : Env) (d : List (String × String)) (res : InstallResult)
    (h : install env d = .ok res) :
    ∃ keep, (filterBranches env d (d.map Prod.fst)).2 = .ok keep ∧
      res = installCore env d (filterBranches env d (d.map Prod.fst)).1 keep := by
  unfold install at h
  cases hm : (filterBranches env d (d.map Prod.fst)).2 with
  | error e => rw [hm] at h; cases h
  | ok keep =>
    rw [hm] at h
    simp only [Except.ok.injEq] at h
    exact ⟨keep, rfl, h.symm⟩

theorem filter_resolve_map_rimraf (names : List String) :
    (names.map (fun n => Event.rimrafSync ("node_modules/**/node_modules/" ++ n))).filter
      isResolveBranch = [] := by
  induction names with
  | nil => rfl
  | cons n rest ih => simp [List.filter, isResolveBranch, ih]

theorem filter_resolve_ilp (env : Env) (repo branch : String) :
    (installIlpKitEvents env repo branch).filter isResolveBranch = [] := rfl

/-! ### Lemmas about the single-character split -/

theorem splitOnChar_not_mem (c : Char) (l : List Char) (h : c ∉ l) :
    splitOnChar c l = [l] := by
  induction l with
  | nil => rfl
  | cons x xs ih =>
    have hx : ¬ x = c := fun hh => h (hh ▸ List.mem_cons_self x xs)
    have hxs : c ∉ xs := fun hh => h (List.mem_cons_of_mem x hh)
    simp only [splitOnChar, if_neg hx, ih hxs]

theorem splitOnChar_append (c : Char) (a b : List Char) (ha : c ∉ a) :
    splitOnChar c (a ++ c :: b) = a :: splitOnChar c b := by
  induction a with
  | nil => simp [splitOnChar]
  | cons x xs ih =>
    have hx : ¬ x = c := fun hh => ha (hh ▸ List.mem_cons_self x xs)
    have hxs : c ∉ xs := fun hh => ha (List.mem_cons_of_mem x hh)
    have ih2 : splitOnChar c (xs.append (c :: b)) = xs :: splitOnChar c b := ih hxs
    simp only [List.cons_append, splitOnChar, if_neg hx, ih2]

theorem splitSecond_append (a b : String) (ha : '#' ∉ a.data) (hb : '#' ∉ b.data) :
    splitSecond (a ++ "#" ++ b) = b := by
  unfold splitSecond jsSplit
  have hdata : (a ++ "#" ++ b).data = a.data ++ '#' :: b.data := by
    rw [String.data_append, String.data_append]
    rw [show "#".data = ['#'] from rfl]
    simp
  rw [hdata, splitOnChar_append _ _ _ ha, splitOnChar_not_mem _ _ hb]
  show (String.mk b.data) = b
  cases b
  rfl

/-! ### The merged lookup against the spec's merge description -/

/-- The later-wins merge lookup as §3/§4.2 of the spec describe it:
overrides beat the dependency set, which beats the fixed base. -/
def specMergeLookup (d o : List (String × String)) (k : String) : Option String :=
  match objGet o k with
  | some v => some v
  | none =>
    match objGet d k with
    | some v => some v
    | none => objGet baseDependencies k

theorem objGet_objAssign_eq (m o : List (String × String)) (k : String)
    (hnd : (o.map Prod.fst).Nodup) :
    objGet (objAssign m o) k =
      match objGet o k with
      | some v => some v
      | none => objGet m k := by
  cases h : objGet o k with
  | none => exact objGet_objAssign_of_none m o k h
  | some v => exact objGet_objAssign_of_some m o k v hnd h

theorem objGet_mergedDependencies (d o : List (String × String)) (k : String)
    (hd : (d.map Prod.fst).Nodup) (ho : (o.map Prod.fst).Nodup) :
    objGet (mergedDependencies d o) k = specMergeLookup d o k := by
  unfold mergedDependencies specMergeLookup
  rw [objGet_objAssign_eq _ _ _ ho]
  cases h : objGet o k with
  | some v => rfl
  | none => rw [objGet_objAssign_eq _ _ _ hd]

/-! ### Claim C8 -/

/-- C8: `getBranchNameUnderTest` returns absent (`none`) whenever the
resolved candidate value equals `"master"` — including when that value
came from the `CIRCLE_BRANCH` environment variable — and also whenever
the resolution result is not a string (`none` = `undefined`). -/
theorem C8_master_absent (env : Env) :
    (env.circleBranch = some "master" → getBranchNameUnderTest env = none) ∧
    (resolveRawBranch env = some "master" → getBranchNameUnderTest env = none) ∧
    (resolveRawBranch env = none → getBranchNameUnderTest env = none) := by
  refine ⟨?_, ?_, ?_⟩
  · intro h
    unfold getBranchNameUnderTest resolveRawBranch
    rw [h]
    rfl
  · intro h
    unfold getBranchNameUnderTest
    rw [h]
    rfl
  · intro h
    unfold getBranchNameUnderTest
    rw [h]

def c8wEnv : Env :=
  { circleBranch := some "master", gitBranchResult := .ok "feature-y",
    fetchStatus := fun _ => .ok 200, hostName := "h", workDir := "/w" }

/-- C8 witness: with `CIRCLE_BRANCH=master` (and a git checkout even on a
different branch) the branch under test resolves to absent. -/
theorem C8_master_absent_witness : getBranchNameUnderTest c8wEnv = none :=
  (C8_master_absent c8wEnv).1 rfl

/-! ### Claim C9 -/

/-- C9: `generateDummyPackageJSON` is a pure function of exactly the
dependency set, the override set and the host-module name: two worlds
that agree on the host name (but may differ in environment variables,
git state, network and working directory) give the identical manifest
string for equal dependency and override sets, and the function logs no
event (its type has no trace and no fallible component). -/
theorem C9_pure_function (env1 env2 : Env) (d o : List (String × String))
    (h : env1.hostName = env2.hostName) :
    generateDummyPackageJSON env1 d o = generateDummyPackageJSON env2 d o := by
  unfold generateDummyPackageJSON generateDummyDescriptor mergedWithHost
  rw [h]

def c9aEnv : Env :=
  { circleBranch := none, gitBranchResult := .error (),
    fetchStatus := fun _ => .ok 200, hostName := "host-mod", workDir := "/w1" }

def c9bEnv : Env :=
  { circleBranch := some "feature-z", gitBranchResult := .ok "other",
    fetchStatus := fun _ => .error (), hostName := "host-mod", workDir := "/w2" }

/-- C9 witness: two worlds differing in environment variable, git state,
network behaviour and working directory produce the same manifest. -/
theorem C9_pure_function_witness :
    generateDummyPackageJSON c9aEnv [("host-mod", "o/h")] [("x", "o/x#f")] =
      generateDummyPackageJSON c9bEnv [("host-mod", "o/h")] [("x", "o/x#f")] :=
  C9_pure_function c9aEnv c9bEnv [("host-mod", "o/h")] [("x", "o/x#f")] rfl

/-! ### Claim C10 -/

/-- C10: when `CIRCLE_BRANCH` is set but empty, `getBranchNameUnderTest`
treats it as absent and falls through to the local git-branch lookup, so
the branch under test comes from the local checkout (normalized through
the `"master"` rule) even though the environment variable was set. -/
theorem C10_empty_circle_branch (env : Env) (g : String)
    (hc : env.circleBranch = some "") (hg : env.gitBranchResult = .ok g) :
    getBranchNameUnderTest env = if g = "master" then none else some g := by
  unfold getBranchNameUnderTest resolveRawBranch
  rw [hc, hg]
  simp [jsTruthy]

def c10wEnv : Env :=
  { circleBranch := some "", gitBranchResult := .ok "feature-w",
    fetchStatus := fun _ => .ok 200, hostName := "h", workDir := "/w" }

/-- C10 witness: `CIRCLE_BRANCH=""` with a local checkout on
`feature-w` yields branch under test `feature-w`. -/
theorem C10_empty_circle_branch_witness : getBranchNameUnderTest c10wEnv = some "feature-w" := by
  rw [C10_empty_circle_branch c10wEnv "feature-w" rfl rfl]
  rfl

/-! ### Claim C1 -/

/-- C1 (amended): for dependency and override sets with unique keys, the
synthesized dependency mapping agrees at every key with the later-wins
merge of the fixed base, the dependency set and the overrides — except
at the host-module key, which is replaced by `"file:../"` whenever its
merged value is truthy.  In particular a key in both sets that is not
such a host key holds exactly the override's value. -/
theorem C1_merge_order (env : Env) (d o : List (String × String))
    (hd : (d.map Prod.fst).Nodup) (ho : (o.map Prod.fst).Nodup) (k : String) :
    objGet (generateDummyDescriptor env d o).dependencies k =
      if k = env.hostName ∧ jsTruthy (specMergeLookup d o k) = true then some "file:../"
      else specMergeLookup d o k := by
  show objGet (mergedWithHost env d o) k = _
  have hm : ∀ k2, objGet (mergedDependencies d o) k2 = specMergeLookup d o k2 :=
    fun k2 => objGet_mergedDependencies d o k2 hd ho
  unfold mergedWithHost
  cases htr : jsTruthy (objGet (mergedDependencies d o) env.hostName) with
  | true =>
    rw [if_pos rfl]
    by_cases hk : k = env.hostName
    · rw [hk, objGet_objSet_self]
      have hts : jsTruthy (specMergeLookup d o env.hostName) = true := by
        rw [← hm]
        exact htr
      rw [if_pos ⟨rfl, hts⟩]
    · rw [objGet_objSet_ne _ _ _ _ hk, hm k, if_neg (fun hh => hk hh.1)]
  | false =>
    rw [if_neg Bool.false_ne_true]
    by_cases hk : k = env.hostName
    · have hf : jsTruthy (specMergeLookup d o k) = false := by
        rw [← hm k, hk]
        exact htr
      rw [hm k, if_neg (fun hh => by rw [hh.2] at hf; exact absurd hf (by decide))]
    · rw [hm k, if_neg (fun hh => hk hh.1)]

def c1wEnv : Env :=
  { circleBranch := none, gitBranchResult := .error (),
    fetchStatus := fun _ => .ok 200, hostName := "h", workDir := "/w" }

/-- C1 witness: for a key in both sets that is not the host module, the
synthesized mapping holds exactly the override's value. -/
theorem C1_merge_order_witness :
    objGet (generateDummyDescriptor c1wEnv [("a", "o/a"), ("b", "o/b")]
      [("b", "o/b#f")]).dependencies "b" = some "o/b#f" := by
  rw [C1_merge_order c1wEnv [("a", "o/a"), ("b", "o/b")] [("b", "o/b#f")]
    (by decide) (by decide) "b"]
  rfl

def c1xEnv : Env :=
  { circleBranch := none, gitBranchResult := .error (),
    fetchStatus := fun _ => .ok 200, hostName := "a", workDir := "/w" }

/-- C1 counterexample: with host module `"a"`, dependency set
`{a: "o/a"}` and overrides `{a: "o/a#b"}`, the key `"a"` is present in
both sets yet the synthesized mapping holds `"file:../"` there, not the
override's value, refuting the claim that the mapping always equals the
plain later-wins merge. -/
theorem C1_merge_order_counterexample :
    objGet (generateDummyDescriptor c1xEnv [("a", "o/a")] [("a", "o/a#b")]).dependencies "a"
        ≠ some "o/a#b" ∧
    objGet (generateDummyDescriptor c1xEnv [("a", "o/a")] [("a", "o/a#b")]).dependencies "a"
        = some "file:../" := by
  constructor
  · decide
  · decide

/-! ### Claim C6 -/

/-- C6 (amended): whenever the host module's name appears as a key of the
merged dependencies with a truthy (non-empty) value, the synthesized
mapping holds the local self-reference `"file:../"` at that key,
whatever specifier was there before substitution. -/
theorem C6_host_self_reference (env : Env) (d o : List (String × String)) (v : String)
    (h : objGet (mergedDependencies d o) env.hostName = some v) (hne : v ≠ "") :
    objGet (generateDummyDescriptor env d o).dependencies env.hostName = some "file:../" := by
  show objGet (mergedWithHost env d o) env.hostName = some "file:../"
  unfold mergedWithHost
  have htr : jsTruthy (objGet (mergedDependencies d o) env.hostName) = true := by
    rw [h]
    simpa [jsTruthy] using hne
  rw [htr]
  simp only [if_true]
  exact objGet_objSet_self _ _ _

def c6wEnv : Env :=
  { circleBranch := none, gitBranchResult := .error (),
    fetchStatus := fun _ => .ok 200, hostName := "host-w", workDir := "/w" }

/-- C6 witness: a host-module key carrying a remote specifier in the
dependency set is rewritten to the local self-reference. -/
theorem C6_host_self_reference_witness :
    objGet (generateDummyDescriptor c6wEnv [("host-w", "o/h")] []).dependencies "host-w"
      = some "file:../" :=
  C6_host_self_reference c6wEnv [("host-w", "o/h")] [] "o/h" rfl (by decide)

def c6xEnv : Env :=
  { circleBranch := none, gitBranchResult := .error (),
    fetchStatus := fun _ => .ok 200, hostName := "host-x", workDir := "/w" }

/-- C6 counterexample: when the host key's merged value is the empty
string (falsy), the substitution guard skips it, so the key appears in
the output with value `""`, not the local self-reference — refuting the
claim for arbitrary prior values. -/
theorem C6_host_self_reference_counterexample :
    objGet (mergedDependencies [("host-x", "")] []) c6xEnv.hostName = some "" ∧
    objGet (generateDummyDescriptor c6xEnv [("host-x", "")] []).dependencies "host-x"
      = some "" ∧
    some ("" : String) ≠ some ("file:../" : String) := by
  refine ⟨?_, ?_, ?_⟩
  · decide
  · decide
  · decide

/-! ### Claim C3 -/

/-- The URL requested by a branch-existence check when the branch under
test is the string `b`. -/
def branchUrl (d : List (String × String)) (dep : String) (b : String) : String :=
  "https://github.com/" ++ jsTemplate (objGet d dep) ++ "/tree/" ++ b

theorem check_eval_ok (env : Env) (d : List (String × String)) (dep b : String) (s : Nat)
    (hb : getBranchNameUnderTest env = some b) (hne : b ≠ "")
    (hf : env.fetchStatus (branchUrl d dep b) = .ok s) :
    checkForBranchOnDependency env d dep =
      ([Event.resolveBranch (some b), Event.fetchReq (branchUrl d dep b)],
        .ok (decide (s = 200))) := by
  have htr : jsTruthy (some b) = true := by simpa [jsTruthy] using hne
  unfold checkForBranchOnDependency
  rw [hb]
  simp only [branchUrl, jsTemplate] at hf ⊢
  simp [htr, hf]

theorem check_eval_error (env : Env) (d : List (String × String)) (dep b : String)
    (hb : getBranchNameUnderTest env = some b) (hne : b ≠ "")
    (hf : env.fetchStatus (branchUrl d dep b) = .error ()) :
    checkForBranchOnDependency env d dep =
      ([Event.resolveBranch (some b), Event.fetchReq (branchUrl d dep b)],
        .error ()) := by
  have htr : jsTruthy (some b) = true := by simpa [jsTruthy] using hne
  unfold checkForBranchOnDependency
  rw [hb]
  simp only [branchUrl, jsTemplate] at hf ⊢
  simp [htr, hf]

/-- C3 (amended): the branch-existence check resolves `false` without any
network request whenever the branch under test is falsy (absent or the
empty string); for a non-empty branch it issues exactly one GET to the
branch URL, resolves `true` iff the status is 200, and a network error
rejects both the check and the whole `install` run rather than
resolving `false`. -/
theorem C3_branch_check (env : Env) (d : List (String × String)) (dep : String) :
    (jsTruthy (getBranchNameUnderTest env) = false →
      checkForBranchOnDependency env d dep =
        ([Event.resolveBranch (getBranchNameUnderTest env)], .ok false)) ∧
    (∀ b, getBranchNameUnderTest env = some b → b ≠ "" →
      (∀ s, env.fetchStatus (branchUrl d dep b) = .ok s →
        fetchRequests (checkForBranchOnDependency env d dep).1 = [branchUrl d dep b] ∧
        (checkForBranchOnDependency env d dep).2 = .ok (decide (s = 200))) ∧
      (env.fetchStatus (branchUrl d dep b) = .error () →
        fetchRequests (checkForBranchOnDependency env d dep).1 = [branchUrl d dep b] ∧
        (checkForBranchOnDependency env d dep).2 = .error () ∧
        (dep ∈ d.map Prod.fst → install env d = .error ()))) := by
  constructor
  · exact check_no_fetch_of_falsy env d dep
  · intro b hb hne
    constructor
    · intro s hf
      rw [check_eval_ok env d dep b s hb hne hf]
      constructor
      · rfl
      · rfl
    · intro hf
      have hch := check_eval_error env d dep b hb hne hf
      refine ⟨?_, ?_, ?_⟩
      · rw [hch]
        rfl
      · rw [hch]
      · intro hmem
        have herr : (checkForBranchOnDependency env d dep).2 = .error () := by rw [hch]
        have hfb := filterBranches_error env d (d.map Prod.fst) dep hmem herr
        unfold install
        rw [hfb]

def c3wEnv : Env :=
  { circleBranch := some "feat", gitBranchResult := .error (),
    fetchStatus := fun _ => .ok 200, hostName := "h", workDir := "/w" }

/-- C3 witness: with branch under test `feat` and a 200 response, the
check issues exactly the branch URL and resolves `true`. -/
theorem C3_branch_check_witness :
    fetchRequests (checkForBranchOnDependency c3wEnv [("a", "o/a")] "a").1 =
      ["https://github.com/o/a/tree/feat"] ∧
    (checkForBranchOnDependency c3wEnv [("a", "o/a")] "a").2 = .ok true := by
  have h := ((C3_branch_check c3wEnv [("a", "o/a")] "a").2 "feat" rfl (by decide)).1 200 rfl
  exact ⟨h.1, h.2⟩

def c3xEnv : Env :=
  { circleBranch := some "", gitBranchResult := .error (),
    fetchStatus := fun _ => .ok 200, hostName := "h", workDir := "/w" }

/-- C3 counterexample: with `CIRCLE_BRANCH=""` and a failing git lookup,
the branch under test is the empty string — present (non-null), not
absent — yet the check resolves `false` without issuing any request,
even though the network would answer 200; this refutes the claim that a
present branch always triggers a single GET. -/
theorem C3_branch_check_counterexample :
    getBranchNameUnderTest c3xEnv = some "" ∧
    fetchRequests (checkForBranchOnDependency c3xEnv [("a", "o/a")] "a").1 = [] ∧
    (checkForBranchOnDependency c3xEnv [("a", "o/a")] "a").2 = .ok false ∧
    c3xEnv.fetchStatus "https://github.com/o/a/tree/" = .ok 200 := by
  refine ⟨?_, ?_, ?_, ?_⟩
  · rfl
  · rfl
  · rfl
  · rfl

/-! ### Claim C2 -/

/-- C2 (amended): whenever the ilp-kit entry of the dependency set is
truthy (a non-empty repository identifier) or absent, the manifest
written by `install` contains no `ilp-kit` key among its dependencies —
the entry is removed from both sets before synthesis.  (An ilp-kit
entry with an empty-string identifier escapes the guarded `delete` and
survives; see the counterexample.) -/
theorem C2_special_removed (env : Env) (d : List (String × String)) (res : InstallResult)
    (h : install env d = .ok res)
    (htr : jsTruthy (objGet d "ilp-kit") = true ∨ objGet d "ilp-kit" = none) :
    objGet res.descriptor.dependencies "ilp-kit" = none := by
  obtain ⟨keep, hk, hres⟩ := install_ok_elim env d res h
  subst hres
  show objGet (mergedWithHost env (depsAfterOf d) (overridesAfterOf env d keep)) "ilp-kit" = none
  have hdeps : objGet (depsAfterOf d) "ilp-kit" = none := by
    unfold depsAfterOf
    rcases htr with h1 | h1
    · rw [h1, if_pos rfl]
      exact objGet_objDelete_self d "ilp-kit"
    · have h2 : jsTruthy (objGet d "ilp-kit") = false := by rw [h1]; rfl
      rw [h2, if_neg Bool.false_ne_true]
      exact h1
  have hov : objGet (overridesAfterOf env d keep) "ilp-kit" = none := by
    unfold overridesAfterOf
    cases hbo : objGet (buildOverrides env d keep) "ilp-kit" with
    | none =>
      rw [if_neg (by decide)]
      exact hbo
    | some v =>
      have hv : v = overrideValue env d "ilp-kit" :=
        buildOverrides_value env d keep "ilp-kit" v hbo
      have hvne : v ≠ "" := by
        rw [hv]
        exact overrideValue_ne_empty env d "ilp-kit"
      rw [if_pos (by simpa [jsTruthy] using hvne)]
      exact objGet_objDelete_self _ _
  have hmerged :
      objGet (mergedDependencies (depsAfterOf d) (overridesAfterOf env d keep)) "ilp-kit"
        = none := by
    unfold mergedDependencies
    rw [objGet_objAssign_of_none _ _ _ hov, objGet_objAssign_of_none _ _ _ hdeps]
    rfl
  unfold mergedWithHost
  cases htr2 : jsTruthy (objGet (mergedDependencies (depsAfterOf d)
      (overridesAfterOf env d keep)) env.hostName) with
  | false =>
    rw [if_neg Bool.false_ne_true]
    exact hmerged
  | true =>
    rw [if_pos rfl]
    by_cases hhost : env.hostName = "ilp-kit"
    · rw [hhost, hmerged] at htr2
      exact absurd htr2 (by decide)
    · rw [objGet_objSet_ne _ _ _ _ (fun hh => hhost hh.symm)]
      exact hmerged

def c2wEnv : Env :=
  { circleBranch := none, gitBranchResult := .error (),
    fetchStatus := fun _ => .ok 200, hostName := "h2", workDir := "/w" }

/-- C2 witness: with ilp-kit present (truthy) in the dependency set, the
synthesized manifest of a run holds no ilp-kit key. -/
theorem C2_special_removed_witness :
    (install c2wEnv [("ilp-kit", "o/i"), ("a", "o/a")]).map
      (fun r => objGet r.descriptor.dependencies "ilp-kit") = .ok none := by
  have hinst : install c2wEnv [("ilp-kit", "o/i"), ("a", "o/a")] =
      .ok (installCore c2wEnv [("ilp-kit", "o/i"), ("a", "o/a")]
        (filterBranches c2wEnv [("ilp-kit", "o/i"), ("a", "o/a")]
          ([("ilp-kit", "o/i"), ("a", "o/a")].map Prod.fst)).1 []) := rfl
  have h2 := C2_special_removed c2wEnv [("ilp-kit", "o/i"), ("a", "o/a")] _ hinst
    (Or.inl (by decide))
  rw [hinst]
  simp only [Except.map]
  rw [h2]

def c2xEnv : Env :=
  { circleBranch := none, gitBranchResult := .error (),
    fetchStatus := fun _ => .ok 404, hostName := "h2x", workDir := "/w" }

/-- C2 counterexample: an ilp-kit entry whose repository identifier is
the empty string is falsy, so the guarded `delete` is skipped and the
written manifest does contain the `ilp-kit` key — refuting the claim
for every input containing the special dependency. -/
theorem C2_special_removed_counterexample :
    (install c2xEnv [("ilp-kit", "")]).map
      (fun r => objGet r.descriptor.dependencies "ilp-kit") = .ok (some "") ∧
    "ilp-kit" ∈ [("ilp-kit", "")].map Prod.fst := by
  constructor
  · rfl
  · decide

/-! ### Claim C4 -/

/-- C4 (amended): the stale-copy cleanup step of `install` recursively
deletes nested copies of exactly the names remaining in the dependency
set after the special dependency was removed — the special dependency's
own name is not cleaned up when it was originally present (with a
truthy value), while every other originally-declared name is. -/
theorem C4_cleanup_names (env : Env) (d : List (String × String)) (res : InstallResult)
    (h : install env d = .ok res) (htr : jsTruthy (objGet d "ilp-kit") = true) :
    "ilp-kit" ∉ res.cleanupNames ∧
    ∀ k, k ∈ d.map Prod.fst → k ≠ "ilp-kit" → k ∈ res.cleanupNames := by
  obtain ⟨keep, hk, hres⟩ := install_ok_elim env d res h
  subst hres
  have hda : depsAfterOf d = objDelete d "ilp-kit" := by
    unfold depsAfterOf
    rw [htr, if_pos rfl]
  constructor
  · show "ilp-kit" ∉ (depsAfterOf d).map Prod.fst
    rw [hda]
    exact not_mem_objDelete d "ilp-kit"
  · intro k hkmem hkne
    show k ∈ (depsAfterOf d).map Prod.fst
    rw [hda]
    exact mem_objDelete_of_ne d "ilp-kit" k hkne hkmem

def c4wEnv : Env :=
  { circleBranch := none, gitBranchResult := .error (),
    fetchStatus := fun _ => .ok 200, hostName := "h4", workDir := "/w" }

/-- C4 witness: with dependency set `{ilp-kit, a}` the cleanup loop runs
for `a` but not for `ilp-kit`. -/
theorem C4_cleanup_names_witness :
    (install c4wEnv [("ilp-kit", "o/i"), ("a", "o/a")]).map
      (fun r => (decide ("ilp-kit" ∉ r.cleanupNames), decide ("a" ∈ r.cleanupNames)))
      = .ok (true, true) := by
  have hinst : install c4wEnv [("ilp-kit", "o/i"), ("a", "o/a")] =
      .ok (installCore c4wEnv [("ilp-kit", "o/i"), ("a", "o/a")]
        (filterBranches c4wEnv [("ilp-kit", "o/i"), ("a", "o/a")]
          ([("ilp-kit", "o/i"), ("a", "o/a")].map Prod.fst)).1 []) := rfl
  have h4 := C4_cleanup_names c4wEnv [("ilp-kit", "o/i"), ("a", "o/a")] _ hinst (by decide)
  have h1 := h4.1
  have h2 := h4.2 "a" (by decide) (by decide)
  rw [hinst]
  simp only [Except.map, Except.ok.injEq, Prod.mk.injEq, decide_eq_true_eq]
  exact ⟨h1, h2⟩

def c4xEnv : Env :=
  { circleBranch := none, gitBranchResult := .error (),
    fetchStatus := fun _ => .ok 404, hostName := "h4x", workDir := "/w" }

/-- C4 counterexample: with `{ilp-kit: "o/i", a: "o/a"}` originally
declared, the cleanup loop covers only `["a"]` — the special
dependency's name, though originally declared, is absent, refuting the
claim that cleanup ranges over all originally-declared names. -/
theorem C4_cleanup_names_counterexample :
    (install c4xEnv [("ilp-kit", "o/i"), ("a", "o/a")]).map (fun r => r.cleanupNames)
      = .ok ["a"] ∧
    "ilp-kit" ∈ [("ilp-kit", "o/i"), ("a", "o/a")].map Prod.fst ∧
    "ilp-kit" ∉ ["a"] := by
  refine ⟨?_, ?_, ?_⟩
  · rfl
  · decide
  · decide

/-! ### Claim C5 -/

theorem filter_resolve_preIlp (env : Env) (d : List (String × String))
    (fe : List Event) (keep : List String) :
    (preIlpEvents env d fe keep).filter isResolveBranch =
      fe.filter isResolveBranch ++ [Event.resolveBranch (getBranchNameUnderTest env)] := by
  unfold preIlpEvents
  rw [List.filter_append, List.filter_append, List.filter_append, List.filter_append,
    filter_resolve_map_rimraf, List.append_nil]
  have h1 : List.filter isResolveBranch
      [Event.spawn "rm" ["-rf", testDir env], Event.mkdir (testDir env),
        Event.chdir (testDir env)] = [] := rfl
  have h2 : List.filter isResolveBranch [Event.resolveBranch (getBranchNameUnderTest env)]
      = [Event.resolveBranch (getBranchNameUnderTest env)] := rfl
  have h3 : List.filter isResolveBranch
      [Event.writeFile (testDir env ++ "/package.json")
        (stringifyDescriptor (generateDummyDescriptor env (depsAfterOf d)
          (overridesAfterOf env d keep))),
       Event.spawn "npm" ["install"]] = [] := rfl
  rw [h1, h2, h3, List.nil_append, List.append_nil]

/-- C5 (amended): during one `install` run the branch under test is
re-resolved once per dependency check and once more before the override
loop — `|D| + 1` resolutions, not at most one — but resolution is a
pure function of the run's environment, so every resolution yields the
same value and every override specifier is built from that value. -/
theorem C5_branch_resolution (env : Env) (d : List (String × String)) (res : InstallResult)
    (h : install env d = .ok res) :
    res.events.filter isResolveBranch =
      List.replicate (d.length + 1) (Event.resolveBranch (getBranchNameUnderTest env)) ∧
    ∀ k v, objGet res.dependencyOverrides k = some v → v = overrideValue env d k := by
  obtain ⟨keep, hk, hres⟩ := install_ok_elim env d res h
  subst hres
  constructor
  · have hilp : ((if jsTruthy (objGet d "ilp-kit") then
        installIlpKitEvents env (jsTemplate (objGet d "ilp-kit")) (ilpKitBranchOf env d keep)
        else []).filter isResolveBranch) = [] := by
      cases h2 : jsTruthy (objGet d "ilp-kit") with
      | true =>
        rw [if_pos rfl]
        exact filter_resolve_ilp env _ _
      | false =>
        rw [if_neg Bool.false_ne_true]
        rfl
    show ((preIlpEvents env d (filterBranches env d (d.map Prod.fst)).1 keep ++ _).filter
      isResolveBranch) = _
    rw [List.filter_append, hilp, List.append_nil, filter_resolve_preIlp,
      filterBranches_events_filter, List.length_map, ← List.replicate_succ']
  · intro k v hv
    exact buildOverrides_value env d keep k v hv

def c5wEnv : Env :=
  { circleBranch := some "feat5", gitBranchResult := .error (),
    fetchStatus := fun _ => .ok 200, hostName := "h5", workDir := "/w" }

/-- C5 witness: a run over one dependency logs exactly two branch
resolutions, both with the same resolved value. -/
theorem C5_branch_resolution_witness :
    (install c5wEnv [("a", "o/a")]).map (fun r => r.events.filter isResolveBranch)
      = .ok (List.replicate 2 (Event.resolveBranch (some "feat5"))) := by
  have hinst : install c5wEnv [("a", "o/a")] =
      .ok (installCore c5wEnv [("a", "o/a")]
        (filterBranches c5wEnv [("a", "o/a")] ([("a", "o/a")].map Prod.fst)).1 ["a"]) := rfl
  have h5 := (C5_branch_resolution c5wEnv [("a", "o/a")] _ hinst).1
  rw [hinst]
  simp only [Except.map]
  rw [h5]
  rfl

def c5xEnv : Env :=
  { circleBranch := some "feat5x", gitBranchResult := .error (),
    fetchStatus := fun _ => .ok 200, hostName := "h5x", workDir := "/w" }

/-- C5 counterexample: a run over a single dependency performs two branch
resolutions, refuting "computed at most once per run". -/
theorem C5_branch_resolution_counterexample :
    (install c5xEnv [("a", "o/a")]).map
      (fun r => (r.events.filter isResolveBranch).length) = .ok 2 ∧
    ¬ (2 ≤ 1) := by
  constructor
  · rfl
  · decide

/-! ### Claim C7 -/

/-- C7 (amended): whenever ilp-kit is present in the dependency set with
a truthy (non-empty) repository identifier, `install` invokes the
secondary install path after the bulk `npm install`, passing that
repository and the branch extracted from the override specifier — which
is the branch under test whenever an override exists (for `#`-free
repository and branch strings) and `"master"` otherwise. -/
theorem C7_secondary_install (env : Env) (d : List (String × String)) (res : InstallResult)
    (h : install env d = .ok res) (r : String)
    (hr : objGet d "ilp-kit" = some r) (hrne : r ≠ "") :
    res.ilpKitCall = some (r, res.ilpKitBranch) ∧
    (∃ pre, res.events = pre ++ installIlpKitEvents env r res.ilpKitBranch ∧
        Event.spawn "npm" ["install"] ∈ pre) ∧
    ("ilp-kit" ∉ res.overridden → res.ilpKitBranch = "master") ∧
    ("ilp-kit" ∈ res.overridden → ∀ b, getBranchNameUnderTest env = some b →
        '#' ∉ r.data → '#' ∉ b.data → res.ilpKitBranch = b) := by
  obtain ⟨keep, hk, hres⟩ := install_ok_elim env d res h
  subst hres
  have htr : jsTruthy (objGet d "ilp-kit") = true := by
    rw [hr]
    simpa [jsTruthy] using hrne
  have hilp : (if jsTruthy (objGet d "ilp-kit") then
      installIlpKitEvents env (jsTemplate (objGet d "ilp-kit")) (ilpKitBranchOf env d keep)
      else []) = installIlpKitEvents env r (ilpKitBranchOf env d keep) := by
    rw [htr, if_pos rfl, hr]
    rfl
  refine ⟨?_, ?_, ?_, ?_⟩
  · show (if jsTruthy (objGet d "ilp-kit") then
        some (jsTemplate (objGet d "ilp-kit"), ilpKitBranchOf env d keep)
      else none) = some (r, ilpKitBranchOf env d keep)
    rw [htr, if_pos rfl, hr]
    rfl
  · refine ⟨preIlpEvents env d (filterBranches env d (d.map Prod.fst)).1 keep, ?_, ?_⟩
    · show preIlpEvents env d (filterBranches env d (d.map Prod.fst)).1 keep ++ _ = _
      rw [hilp]
      rfl
    · unfold preIlpEvents
      simp [List.mem_append]
  · intro hnot
    show ilpKitBranchOf env d keep = "master"
    unfold ilpKitBranchOf
    have hno : objGet (buildOverrides env d keep) "ilp-kit" = none :=
      buildOverrides_none env d keep "ilp-kit" hnot
    rw [hno]
    rfl
  · intro hmem b hb hra hbb
    show ilpKitBranchOf env d keep = b
    unfold ilpKitBranchOf
    have hbo : objGet (buildOverrides env d keep) "ilp-kit" =
        some (overrideValue env d "ilp-kit") :=
      buildOverrides_mem env d keep "ilp-kit" hmem
    have htr2 : jsTruthy (objGet (buildOverrides env d keep) "ilp-kit") = true := by
      rw [hbo]
      simpa [jsTruthy] using overrideValue_ne_empty env d "ilp-kit"
    rw [htr2, if_pos rfl, hbo]
    show splitSecond (overrideValue env d "ilp-kit") = b
    have hval : overrideValue env d "ilp-kit" = r ++ "#" ++ b := by
      unfold overrideValue
      rw [hr, hb]
      rfl
    rw [hval]
    exact splitSecond_append r b hra hbb

def c7wEnv : Env :=
  { circleBranch := some "feature-x", gitBranchResult := .error (),
    fetchStatus := fun _ => .ok 200, hostName := "host7", workDir := "/w" }

/-- C7 witness (spec scenario C): dependency set
`{ilp-kit: "org/special-kit"}` with confirmed branch `feature-x` makes
`install` call the secondary path with repository `org/special-kit` and
branch `feature-x`. -/
theorem C7_secondary_install_witness :
    (install c7wEnv [("ilp-kit", "org/special-kit")]).map (fun r => r.ilpKitCall)
      = .ok (some ("org/special-kit", "feature-x")) := by
  have hinst : install c7wEnv [("ilp-kit", "org/special-kit")] =
      .ok (installCore c7wEnv [("ilp-kit", "org/special-kit")]
        (filterBranches c7wEnv [("ilp-kit", "org/special-kit")]
          ([("ilp-kit", "org/special-kit")].map Prod.fst)).1 ["ilp-kit"]) := rfl
  have h7 := C7_secondary_install c7wEnv [("ilp-kit", "org/special-kit")] _ hinst
    "org/special-kit" (by decide) (by decide)
  have hb := h7.2.2.2 (List.mem_singleton.mpr rfl) "feature-x" rfl (by decide) (by decide)
  rw [hinst]
  simp only [Except.map]
  rw [h7.1, hb]

def c7xEnv : Env :=
  { circleBranch := none, gitBranchResult := .error (),
    fetchStatus := fun _ => .ok 404, hostName := "h7x", workDir := "/w" }

/-- C7 counterexample: an ilp-kit entry with an empty-string repository
identifier is present in the dependency set, yet the secondary install
path is never invoked — the `if (ilpKitRepo)` guard is falsy. -/
theorem C7_secondary_install_counterexample :
    (install c7xEnv [("ilp-kit", "")]).map (fun r => r.ilpKitCall) = .ok none ∧
    "ilp-kit" ∈ [("ilp-kit", "")].map Prod.fst := by
  constructor
  · rfl
  · decide

end DepMgr
